import Mathlib

/-!
Shallow embedding of the recipe-costing and stock-estimation core of
`src/database.py` (Mitsy's POS persistence layer), together with proofs of
the testable properties stated in the specification.

Tables are modelled as lists of records; SQL `REAL` values as `ℚ`; the SQL
statements of each Python method are translated one by one:
`SELECT ... WHERE` becomes `List.filter` / `List.find?`, `UPDATE ... WHERE`
becomes `List.map` with a conditional rewrite, `JOIN` becomes a `bind` over
the matching rows, `ORDER BY id` becomes an insertion sort on the id field,
and Python's `int()` truncation toward zero becomes `truncQ`.
-/

namespace Mitsys

/-- Row of the `productos` table. -/
structure Producto where
  id : Nat
  nombre : String
  precio_unitario : ℚ
  costo : ℚ
  ganancia : ℚ
  unidad_medida : String
  stock_estimado : ℚ
  stock_minimo : ℚ
  gestion_stock : Bool
  imagen : Option String
  activo : Bool
  fecha_creacion : String
deriving DecidableEq

/-- Row of the `ingredientes` table. -/
structure Ingrediente where
  id : Nat
  nombre : String
  unidad_almacen : String
  costo_unitario : ℚ
  cantidad_stock : ℚ
  gestion_stock : Bool
  activo : Bool
  fecha_creacion : String
deriving DecidableEq

/-- Row of the `recetas` table. -/
structure Receta where
  id : Nat
  id_producto : Nat
  id_ingrediente : Nat
  cantidad_requerida : ℚ
  unidad_porcionamiento : String
deriving DecidableEq

/-- Row of the `ventas` table (the fields the core touches). -/
structure Venta where
  id : Nat
  numero_venta : Nat
  producto : String
  id_producto : Option Nat
  cantidad : ℚ
  precio_unitario : ℚ
  total : ℚ
deriving DecidableEq

/-- The database state: the four tables the propagation core reads/writes. -/
structure DB where
  productos : List Producto
  ingredientes : List Ingrediente
  recetas : List Receta
  ventas : List Venta
deriving DecidableEq

/-- Python `int()` on a rational: truncation toward zero. -/
def truncQ (q : ℚ) : ℤ := if 0 ≤ q then ⌊q⌋ else ⌈q⌉

/-- Source `id_exists('productos', v)`: `SELECT id FROM productos WHERE id = ?`. -/
def id_exists_productos (db : DB) (v : Nat) : Bool :=
  db.productos.any (fun p => p.id == v)

/-- Source `id_exists('ingredientes', v)`. -/
def id_exists_ingredientes (db : DB) (v : Nat) : Bool :=
  db.ingredientes.any (fun i => i.id == v)

/-- Source `get_producto`: `SELECT * FROM productos WHERE id = ?` (first row). -/
def get_producto (db : DB) (pid : Nat) : Option Producto :=
  db.productos.find? (fun p => p.id == pid)

/-- Source `get_ingrediente`: `SELECT * FROM ingredientes WHERE id = ?` (first row). -/
def get_ingrediente (db : DB) (iid : Nat) : Option Ingrediente :=
  db.ingredientes.find? (fun i => i.id == iid)

/-- Source `get_recetas_producto`: the join
`SELECT r.*, i... FROM recetas r JOIN ingredientes i ON r.id_ingrediente = i.id
WHERE r.id_producto = ? AND i.activo = 1`, returned as (receta, ingrediente)
pairs. -/
def get_recetas_producto (db : DB) (pid : Nat) : List (Receta × Ingrediente) :=
  (db.recetas.filter (fun r => r.id_producto == pid)).flatMap (fun r =>
    (db.ingredientes.filter (fun i => (i.id == r.id_ingrediente) && i.activo)).map
      (fun i => (r, i)))

/-- Source `recalcular_costo_producto`: if the joined recipe set is empty, return
unchanged; else sum `cantidad_requerida * costo_unitario` over the lines and
run the single statement
`UPDATE productos SET costo = ?, ganancia = precio_unitario - ? WHERE id = ?`. -/
def recalcular_costo_producto (db : DB) (pid : Nat) : DB :=
  let recetas := get_recetas_producto db pid
  if recetas.isEmpty then db
  else
    let costo_total := (recetas.map (fun ri => ri.1.cantidad_requerida * ri.2.costo_unitario)).sum
    { db with productos := db.productos.map (fun p =>
        if p.id == pid then
          { p with costo := costo_total, ganancia := p.precio_unitario - costo_total }
        else p) }

/-- Source `calcular_stock_estimado`: capacities `cantidad_stock / cantidad_requerida`
over lines with positive requirement; result `int(min(capacidades))`, with 0
for an empty recipe set or an empty capacity list. -/
def calcular_stock_estimado (db : DB) (pid : Nat) : ℤ :=
  let recetas := get_recetas_producto db pid
  if recetas.isEmpty then 0
  else
    let capacidades := (recetas.filter (fun ri => decide (0 < ri.1.cantidad_requerida))).map
      (fun ri => ri.2.cantidad_stock / ri.1.cantidad_requerida)
    match capacidades with
    | [] => 0
    | c :: cs => truncQ (cs.foldl min c)

/-- Source `actualizar_stock_estimado`:
`UPDATE productos SET stock_estimado = ? WHERE id = ?` with the value of
`calcular_stock_estimado`. -/
def actualizar_stock_estimado (db : DB) (pid : Nat) : DB :=
  let stock := calcular_stock_estimado db pid
  { db with productos := db.productos.map (fun p =>
      if p.id == pid then { p with stock_estimado := (stock : ℚ) } else p) }

/-- One loop iteration of `descontar_inventario_por_venta`:
`UPDATE ingredientes SET cantidad_stock = cantidad_stock - ? WHERE id = ?`
with `cantidad_requerida * cantidad_vendida`, applied to one row `y`. -/
def descStep (n : ℚ) (y : Ingrediente) (ri : Receta × Ingrediente) : Ingrediente :=
  if y.id == ri.1.id_ingrediente then
    { y with cantidad_stock := y.cantidad_stock - ri.1.cantidad_requerida * n }
  else y

/-- Source `descontar_inventario_por_venta`: fetch the joined recipe lines once, then
for each line run the `descStep` stock update over the ingredient table;
finally update the product's estimated stock. -/
def descontar_inventario_por_venta (db : DB) (pid : Nat) (cantidad_vendida : ℚ) : DB :=
  let recetas := get_recetas_producto db pid
  let nuevos := recetas.foldl (fun ings ri =>
    ings.map (fun i => descStep cantidad_vendida i ri)) db.ingredientes
  actualizar_stock_estimado { db with ingredientes := nuevos } pid

/-- Source `registrar_compra_ingrediente`:
`UPDATE ingredientes SET cantidad_stock = cantidad_stock + ? WHERE id = ?`. -/
def registrar_compra_ingrediente (db : DB) (iid : Nat) (cantidad : ℚ) : DB :=
  { db with ingredientes := db.ingredientes.map (fun i =>
      if i.id == iid then { i with cantidad_stock := i.cantidad_stock + cantidad } else i) }

/-- Errors surfaced to callers (`ValueError` on duplicate manual id;
the `TypeError` Python would hit when recomputing `ganancia` for a missing
product). -/
inductive DBError where
  | idExists
  | missingRow
deriving DecidableEq

/-- Source `add_producto`: reject a duplicate id, else insert the row with
`ganancia = precio - costo` and `activo = 1`. `fecha` stands for
`datetime.now()` formatted. -/
def add_producto (db : DB) (idp : Nat) (nombre : String) (precioN costoN : ℚ)
    (unidad : String) (gstock : Bool) (stockEst stockMin : ℚ)
    (imagen : Option String) (fecha : String) : Except DBError DB :=
  if id_exists_productos db idp then .error .idExists
  else .ok { db with productos := db.productos ++
    [⟨idp, nombre, precioN, costoN, precioN - costoN, unidad, stockEst, stockMin,
      gstock, imagen, true, fecha⟩] }

/-- The keyword-argument map of `update_producto`, restricted to the fields
the costing core reads (name, price, cost); absent fields are untouched. -/
structure ProductoUpdate where
  nombre : Option String := none
  precio_unitario : Option ℚ := none
  costo : Option ℚ := none
deriving DecidableEq

/-- The final `UPDATE productos SET ... WHERE id = old_id` of
`update_producto`: applies the present kwargs (plus the optional new id and
the optional recomputed `ganancia`) to every row matching `old_id`. -/
def runUpdateProducto (db : DB) (old_id : Nat) (idField : Option Nat)
    (kw : ProductoUpdate) (gan : Option ℚ) : DB :=
  { db with productos := db.productos.map (fun q =>
      if q.id == old_id then
        { q with id := idField.getD q.id,
                 nombre := kw.nombre.getD q.nombre,
                 precio_unitario := kw.precio_unitario.getD q.precio_unitario,
                 costo := kw.costo.getD q.costo,
                 ganancia := gan.getD q.ganancia }
      else q) }

/-- Tail of `update_producto` after the id-change block: recompute `ganancia`
when price or cost is among the kwargs (reading the current row — Python
crashes if it is missing, modelled as `.error .missingRow`), then run the
update unless the kwargs map is empty. -/
def applyUpdateProducto (db : DB) (old_id : Nat) (idField : Option Nat)
    (kw : ProductoUpdate) : Except DBError DB :=
  if kw.precio_unitario.isSome || kw.costo.isSome then
    match get_producto db old_id with
    | none => .error .missingRow
    | some producto =>
      let precioN := kw.precio_unitario.getD producto.precio_unitario
      let costoN := kw.costo.getD producto.costo
      .ok (runUpdateProducto db old_id idField kw (some (precioN - costoN)))
  else
    if kw.nombre.isNone && idField.isNone then .ok db
    else .ok (runUpdateProducto db old_id idField kw none)

/-- Source `update_producto(old_id, new_id, **kwargs)`: when a (truthy) different
new id is given, reject if it exists, rewrite `recetas.id_producto` and
`ventas.id_producto` references, and add `id` to the kwargs; then recompute
`ganancia` if price or cost is updated, and apply the row update. -/
def update_producto (db : DB) (old_id : Nat) (new_id : Option Nat)
    (kw : ProductoUpdate) : Except DBError DB :=
  let idNew : Option Nat := match new_id with
    | some nid => if nid != 0 && nid != old_id then some nid else none
    | none => none
  match idNew with
  | some nid =>
    if id_exists_productos db nid then .error .idExists
    else
      let db1 := { db with
        recetas := db.recetas.map (fun r =>
          if r.id_producto == old_id then { r with id_producto := nid } else r),
        ventas := db.ventas.map (fun v =>
          if v.id_producto == some old_id then { v with id_producto := some nid } else v) }
      applyUpdateProducto db1 old_id (some nid) kw
  | none => applyUpdateProducto db old_id none kw

/-- The id under which `update_producto old_id new_id ...` leaves the updated
row: the given new id when it is truthy and different from `old_id` (the same
condition the source tests), else `old_id`. -/
def effectiveId (old_id : Nat) (new_id : Option Nat) : Nat :=
  match new_id with
  | some nid => if nid != 0 && nid != old_id then nid else old_id
  | none => old_id

/-- Source `ORDER BY id` on ingredient rows. -/
def leIngId (a b : Ingrediente) : Prop := a.id ≤ b.id

instance : DecidableRel leIngId := fun a b => Nat.decLe a.id b.id
instance : IsTotal Ingrediente leIngId := ⟨fun a b => Nat.le_total a.id b.id⟩
instance : IsTrans Ingrediente leIngId := ⟨fun _ _ _ => Nat.le_trans⟩

/-- Source `ORDER BY id` on product rows. -/
def leProdId (a b : Producto) : Prop := a.id ≤ b.id

instance : DecidableRel leProdId := fun a b => Nat.decLe a.id b.id
instance : IsTotal Producto leProdId := ⟨fun a b => Nat.le_total a.id b.id⟩
instance : IsTrans Producto leProdId := ⟨fun _ _ _ => Nat.le_trans⟩

/-- One iteration of `reorganize_ids('ingredientes')` for the survivor at
0-based position `p.1` with row `p.2`: reinsert the row with id `p.1 + 1` and
run `UPDATE recetas SET id_ingrediente = ? WHERE id_ingrediente = old_id`. -/
def reorgStepIng (d : DB) (p : Nat × Ingrediente) : DB :=
  { d with
    ingredientes := d.ingredientes ++ [{ p.2 with id := p.1 + 1 }],
    recetas := d.recetas.map (fun r =>
      if r.id_ingrediente == p.2.id then { r with id_ingrediente := p.1 + 1 } else r) }

/-- Source `reorganize_ids('ingredientes')`: read the active rows in id order, delete
every row of the table, then reinsert them with consecutive ids starting at 1,
rewriting recipe references after each reinsertion. -/
def reorganize_ids_ingredientes (db : DB) : DB :=
  let registros := List.insertionSort leIngId (db.ingredientes.filter (fun i => i.activo))
  registros.enum.foldl reorgStepIng { db with ingredientes := [] }

/-- One iteration of `reorganize_ids('productos')`: reinsert the survivor with
its new id and rewrite `recetas.id_producto` and `ventas.id_producto`. -/
def reorgStepProd (d : DB) (p : Nat × Producto) : DB :=
  { d with
    productos := d.productos ++ [{ p.2 with id := p.1 + 1 }],
    recetas := d.recetas.map (fun r =>
      if r.id_producto == p.2.id then { r with id_producto := p.1 + 1 } else r),
    ventas := d.ventas.map (fun v =>
      if v.id_producto == some p.2.id then { v with id_producto := some (p.1 + 1) } else v) }

/-- Source `reorganize_ids('productos')`. -/
def reorganize_ids_productos (db : DB) : DB :=
  let registros := List.insertionSort leProdId (db.productos.filter (fun p => p.activo))
  registros.enum.foldl reorgStepProd { db with productos := [] }

/-- Source `delete_ingrediente`: `UPDATE ingredientes SET activo = 0 WHERE id = ?`,
then reorganize the ingredient ids. -/
def delete_ingrediente (db : DB) (iid : Nat) : DB :=
  reorganize_ids_ingredientes
    { db with ingredientes := db.ingredientes.map (fun i =>
        if i.id == iid then { i with activo := false } else i) }

/-- Source `delete_producto`: `UPDATE productos SET activo = 0 WHERE id = ?`, then
reorganize the product ids. -/
def delete_producto (db : DB) (pid : Nat) : DB :=
  reorganize_ids_productos
    { db with productos := db.productos.map (fun p =>
        if p.id == pid then { p with activo := false } else p) }

/-! Derived definitions and sample data used in the statements -/

/-- The total cost `recalcular_costo_producto` computes for `pid`. -/
def costoTotal (db : DB) (pid : Nat) : ℚ :=
  ((get_recetas_producto db pid).map
    (fun ri => ri.1.cantidad_requerida * ri.2.costo_unitario)).sum

/-- Sample product used by several witnesses. -/
def pTaco : Producto := ⟨1, "Taco", 10, 0, 10, "Pza", 0, 0, true, none, true, ""⟩

/-- Tortilla ingredient of the sample database (2 per taco, stock 100). -/
def iTortilla : Ingrediente := ⟨1, "Tortilla", "Pza", 1, 100, true, true, ""⟩

/-- Carne ingredient of the sample database (1 per taco, stock 5). -/
def iCarne : Ingrediente := ⟨2, "Carne", "Kg", 20, 5, true, true, ""⟩

/-- Sample database: one product with a two-line recipe. -/
def dbTaco : DB := ⟨[pTaco], [iTortilla, iCarne], [⟨1, 1, 1, 2, "Pza"⟩, ⟨2, 1, 2, 1, "Kg"⟩], []⟩

/-- The capacity list `calcular_stock_estimado` builds: for each joined
recipe line with positive requirement, `cantidad_stock / cantidad_requerida`. -/
def capacidades (db : DB) (pid : Nat) : List ℚ :=
  ((get_recetas_producto db pid).filter (fun ri => decide (0 < ri.1.cantidad_requerida))).map
    (fun ri => ri.2.cantidad_stock / ri.1.cantidad_requerida)

/-- An ingredient with negative stock (−1) required at 2 per unit: the only
capacity is −1/2. -/
def dbNegStock : DB := ⟨[pTaco], [⟨1, "A", "Kg", 5, -1, true, true, ""⟩], [⟨1, 1, 1, 2, "Kg"⟩], []⟩

/-- A product with no recipe lines at all. -/
def dbSinReceta : DB := ⟨[⟨3, "Torta", 25, 9, 16, "Pza", 0, 0, false, none, true, ""⟩], [], [], []⟩

/-- The survivor list `reorganize_ids('ingredientes')` reads inside
`delete_ingrediente db iid`: the still-active rows, in id order. -/
def survivorsIng (db : DB) (iid : Nat) : List Ingrediente :=
  List.insertionSort leIngId
    ((db.ingredientes.map (fun i => if i.id == iid then { i with activo := false } else i)).filter
      (fun i => i.activo))

/-- The survivor list `reorganize_ids('productos')` reads inside
`delete_producto db pid`. -/
def survivorsProd (db : DB) (pid : Nat) : List Producto :=
  List.insertionSort leProdId
    ((db.productos.map (fun p => if p.id == pid then { p with activo := false } else p)).filter
      (fun p => p.activo))

/-- The new identifier of a reference value after a reorganization whose
survivors had old ids `olds` (in reinsertion order): position + 1 if the value
was a survivor's id, otherwise unchanged. -/
def renum (olds : List Nat) (v : Nat) : Nat :=
  match olds.findIdx? (fun o => o == v) with
  | some j => j + 1
  | none => v

/-- Source `renum` on an `Option` reference (`NULL` never matches the SQL update). -/
def renumOpt (olds : List Nat) (v : Option Nat) : Option Nat :=
  match v with
  | some x => some (renum olds x)
  | none => none

/-- Ingredient 1 ("A"), used by the only recipe line of the C4 scenario. -/
def iIngA : Ingrediente := ⟨1, "A", "Kg", 5, 10, true, true, ""⟩

/-- Ingredient 2 ("B"), used by no recipe line. -/
def iIngB : Ingrediente := ⟨2, "B", "Kg", 7, 4, true, true, ""⟩

/-- C4/C9 scenario database: one product, two ingredients, one recipe line
on ingredient 1. -/
def dbDosIng : DB := ⟨[pTaco], [iIngA, iIngB], [⟨1, 1, 1, 1, "Kg"⟩], []⟩

/-- A dangling recipe line: its product id 9 has no row. -/
def dbDangling : DB := ⟨[], [iTortilla], [⟨1, 9, 1, 2, "Pza"⟩], []⟩

/-- The row inserted by the C5 witness (`ganancia` literally `4 - 1`). -/
def aguaRow : Producto := ⟨7, "Agua", 4, 1, 4 - 1, "Pza", 0, 0, false, none, true, ""⟩

/-- The database after the C5 witness insertion. -/
def dbAgua : DB := { dbSinReceta with productos := dbSinReceta.productos ++ [aguaRow] }

/-- The "Torta" row after the C5 witness update: id changed 3 → 5, new price
30, `ganancia` literally `30 - 9`. -/
def updTorta : Producto := ⟨5, "Torta", 30, 9, 30 - 9, "Pza", 0, 0, false, none, true, ""⟩

/-- The database after the C5 witness id-changing update. -/
def dbTortaUpd : DB := ⟨[updTorta], [], [], []⟩

/-! Helper lemmas -/

/-- Source `find?` over a `map` whose function leaves the searched predicate
invariant. -/
theorem find?_map_pres {α : Type} (f : α → α) (p : α → Bool)
    (hf : ∀ x, p (f x) = p x) (l : List α) :
    (l.map f).find? p = (l.find? p).map f := by
  have hp : (fun x => p (f x)) = p := funext hf
  rw [List.find?_map]
  simp only [Function.comp_def, hp]

/-- Source `find?` over a `map` whose function translates one searched
predicate into another, pointwise on the list. -/
theorem find?_map_congr {α : Type} (f : α → α) (p q : α → Bool) (l : List α)
    (h : ∀ x ∈ l, p (f x) = q x) :
    (l.map f).find? p = (l.find? q).map f := by
  induction l with
  | nil => rfl
  | cons x xs ih =>
    simp only [List.map_cons]
    by_cases hx : q x = true
    · rw [List.find?_cons_of_pos _ (by rw [h x (List.mem_cons_self x xs)]; exact hx),
        List.find?_cons_of_pos _ hx, Option.map_some']
    · rw [List.find?_cons_of_neg _ (by rw [h x (List.mem_cons_self x xs)]; exact hx),
        List.find?_cons_of_neg _ hx]
      exact ih (fun y hy => h y (List.mem_cons_of_mem x hy))

/-- A map that fixes every element of the list is the identity. -/
theorem map_eq_self_of {α : Type} (f : α → α) (l : List α)
    (h : ∀ x ∈ l, f x = x) : l.map f = l := by
  induction l with
  | nil => rfl
  | cons x xs ih =>
    simp only [List.map_cons]
    rw [h x (List.mem_cons_self x xs), ih (fun y hy => h y (List.mem_cons_of_mem x hy))]

/-- With unique ids, `find?` by an element's id returns that element. -/
theorem find?_id_of_mem_nodup {α : Type} (key : α → Nat) (l : List α)
    (hnd : (l.map key).Nodup) (i : α) (hi : i ∈ l) :
    l.find? (fun j => key j == key i) = some i := by
  induction l with
  | nil => cases hi
  | cons x xs ih =>
    simp only [List.map_cons, List.nodup_cons] at hnd
    rcases List.mem_cons.mp hi with h | h
    · subst h
      exact List.find?_cons_of_pos _ (by simp)
    · have hne : key x ≠ key i := by
        intro he
        exact hnd.1 (he ▸ List.mem_map_of_mem key h)
      rw [List.find?_cons_of_neg _ (by simpa using hne)]
      exact ih hnd.2 h

/-- A fold that maps the accumulator list at each step equals mapping each
element by the corresponding element-wise fold. -/
theorem foldl_map_comm {α β : Type} (g : β → α → α) (lines : List β) :
    ∀ init : List α,
      lines.foldl (fun acc r => acc.map (g r)) init
        = init.map (fun x => lines.foldl (fun y r => g r y) x) := by
  induction lines with
  | nil => intro init; simp
  | cons r rs ih =>
    intro init
    simp only [List.foldl_cons]
    rw [ih, List.map_map]
    rfl

/-! C1: recompute_cost writes cost and profit from the joined recipe set -/

/-- C1: for a product whose joined (active-ingredient) recipe set is
non-empty, `recalcular_costo_producto` stores exactly the recipe-cost sum as
`costo` and `precio_unitario - costo` as `ganancia`, in a single row update
that leaves every other field of the row as it was. -/
theorem recalcular_costo_correct (db : DB) (pid : Nat) (p : Producto)
    (hp : get_producto db pid = some p)
    (hne : get_recetas_producto db pid ≠ []) :
    get_producto (recalcular_costo_producto db pid) pid =
      some { p with costo := costoTotal db pid,
                    ganancia := p.precio_unitario - costoTotal db pid } := by
  have hp' : db.productos.find? (fun q => q.id == pid) = some p := hp
  have hpe : p.id = pid := by simpa using List.find?_some hp'
  unfold recalcular_costo_producto get_producto costoTotal
  dsimp only
  rw [if_neg (by simpa using hne)]
  dsimp only
  rw [find?_map_pres _ _ (fun x => by by_cases hx : x.id == pid <;> simp [hx])]
  rw [hp']
  simp [hpe]

/-- Witness: C1 applied to the sample database. -/
theorem recalcular_costo_correct_witness :
    get_producto (recalcular_costo_producto dbTaco 1) 1 =
      some { pTaco with costo := costoTotal dbTaco 1,
                        ganancia := pTaco.precio_unitario - costoTotal dbTaco 1 } :=
  recalcular_costo_correct dbTaco 1 pTaco (by decide) (by decide)

/-! C2: stock estimation is a truncated minimum-capacity computation -/

/-- Source `calcular_stock_estimado` unfolded through `capacidades`. -/
theorem calcular_stock_eq (db : DB) (pid : Nat) :
    calcular_stock_estimado db pid =
      if (get_recetas_producto db pid).isEmpty then 0
      else
        match capacidades db pid with
        | [] => 0
        | c :: cs => truncQ (cs.foldl min c) := rfl

/-- A `foldl min` is a lower bound of its seed and of the list. -/
theorem foldl_min_le {α : Type} [LinearOrder α] (cs : List α) :
    ∀ c : α, (cs.foldl min c ≤ c) ∧ ∀ x ∈ cs, cs.foldl min c ≤ x := by
  induction cs with
  | nil => intro c; exact ⟨le_refl c, by simp⟩
  | cons d ds ih =>
    intro c
    refine ⟨?_, ?_⟩
    · exact le_trans (ih (min c d)).1 (min_le_left c d)
    · intro x hx
      rcases List.mem_cons.mp hx with h | h
      · subst h; exact le_trans (ih (min c x)).1 (min_le_right c x)
      · exact (ih (min c d)).2 x h

/-- A `foldl min` is the seed or one of the list elements. -/
theorem foldl_min_mem {α : Type} [LinearOrder α] (cs : List α) :
    ∀ c : α, cs.foldl min c = c ∨ cs.foldl min c ∈ cs := by
  induction cs with
  | nil => intro c; exact Or.inl rfl
  | cons d ds ih =>
    intro c
    rcases ih (min c d) with h | h
    · rcases min_choice c d with hm | hm
      · exact Or.inl (by rw [List.foldl_cons, h, hm])
      · exact Or.inr (by rw [List.foldl_cons, h, hm]; exact List.mem_cons_self d ds)
    · exact Or.inr (List.mem_cons_of_mem d (by simpa using h))

/-- C2 (amended): with no recipe lines, or with every line excluded for
non-positive requirement, the estimate is 0; otherwise it is the minimum of
the capacity list truncated toward zero — which agrees with the claimed
floor exactly when that minimum is non-negative (so not for negative
fractional minima, see the counterexample). -/
theorem calcular_stock_trunc_min (db : DB) (pid : Nat) :
    (get_recetas_producto db pid = [] → calcular_stock_estimado db pid = 0) ∧
    (capacidades db pid = [] → calcular_stock_estimado db pid = 0) ∧
    (capacidades db pid ≠ [] →
      ∃ m, m ∈ capacidades db pid ∧ (∀ x ∈ capacidades db pid, m ≤ x) ∧
        calcular_stock_estimado db pid = truncQ m) ∧
    (∀ q : ℚ, 0 ≤ q → truncQ q = ⌊q⌋) := by
  refine ⟨?_, ?_, ?_, ?_⟩
  · intro h
    rw [calcular_stock_eq]
    simp [h]
  · intro h
    rw [calcular_stock_eq, h]
    split <;> rfl
  · intro h
    have hne : ¬((get_recetas_producto db pid).isEmpty = true) := by
      intro hemp
      apply h
      have he : get_recetas_producto db pid = [] := by simpa using hemp
      simp [capacidades, he]
    cases hc : capacidades db pid with
    | nil => exact absurd hc h
    | cons c cs =>
      refine ⟨cs.foldl min c, ?_, ?_, ?_⟩
      · rcases foldl_min_mem cs c with h1 | h1
        · rw [h1]; exact List.mem_cons_self _ _
        · exact List.mem_cons_of_mem _ h1
      · intro x hx
        rcases List.mem_cons.mp hx with h1 | h1
        · subst h1; exact (foldl_min_le cs x).1
        · exact (foldl_min_le cs c).2 x h1
      · rw [calcular_stock_eq, if_neg hne, hc]
  · intro q hq
    unfold truncQ
    rw [if_pos hq]

/-- Witness: C2 (amended) applied to the sample database, whose capacity
minimum is 5. -/
theorem calcular_stock_trunc_min_witness :
    ∃ m, m ∈ capacidades dbTaco 1 ∧ (∀ x ∈ capacidades dbTaco 1, m ≤ x) ∧
      calcular_stock_estimado dbTaco 1 = truncQ m :=
  (calcular_stock_trunc_min dbTaco 1).2.2.1 (by decide)

/-- C2 counterexample: the claim demands the floor of the capacity minimum
even for negative stock, i.e. ⌊−1/2⌋ = −1 here, but the code's `int()`
truncates toward zero and returns 0. -/
theorem calcular_stock_not_floor :
    capacidades dbNegStock 1 = [-(1 : ℚ)/2] ∧
    calcular_stock_estimado dbNegStock 1 = 0 ∧
    (⌊-(1 : ℚ)/2⌋ : ℤ) = -1 := by
  refine ⟨?_, ?_, ?_⟩ <;>
    norm_num [capacidades, calcular_stock_estimado, get_recetas_producto, dbNegStock,
      pTaco, truncQ]

/-! C3: sale deduction decrements each linked ingredient and refreshes
the stored estimate -/

/-- Unpacking membership in the recipe join. -/
theorem mem_recetas_producto {db : DB} {pid : Nat} {ri : Receta × Ingrediente}
    (h : ri ∈ get_recetas_producto db pid) :
    ri.1 ∈ db.recetas ∧ ri.1.id_producto = pid ∧ ri.2 ∈ db.ingredientes ∧
      ri.2.id = ri.1.id_ingrediente ∧ ri.2.activo = true := by
  simp only [get_recetas_producto, List.mem_flatMap, List.mem_filter, List.mem_map,
    beq_iff_eq, Bool.and_eq_true, decide_eq_true_eq] at h
  obtain ⟨r, ⟨hr, hrp⟩, i, ⟨hi, hii, hia⟩, heq⟩ := h
  subst heq
  exact ⟨hr, hrp, hi, hii, hia⟩

/-- Source `descStep` never changes the id. -/
theorem descStep_id (n : ℚ) (y : Ingrediente) (ri : Receta × Ingrediente) :
    (descStep n y ri).id = y.id := by
  unfold descStep
  split <;> rfl

/-- Folding `descStep` over lines none of which matches is the identity. -/
theorem descFold_id (n : ℚ) (lines : List (Receta × Ingrediente)) :
    ∀ x : Ingrediente, (∀ ri ∈ lines, x.id ≠ ri.1.id_ingrediente) →
      lines.foldl (descStep n) x = x := by
  induction lines with
  | nil => intro x _; rfl
  | cons hd tl ih =>
    intro x h
    rw [List.foldl_cons]
    have hne : (x.id == hd.1.id_ingrediente) = false := by
      simpa using h hd (List.mem_cons_self hd tl)
    have hstep : descStep n x hd = x := by unfold descStep; rw [hne]; rfl
    rw [hstep]
    exact ih x (fun ri hri => h ri (List.mem_cons_of_mem hd hri))

/-- Folding `descStep` over lines with pairwise-distinct ingredient ids,
starting from the ingredient matching one line, applies exactly that line's
decrement. -/
theorem descFold_single (n : ℚ) (lines : List (Receta × Ingrediente)) :
    ∀ x : Ingrediente, (lines.map (fun ri => ri.1.id_ingrediente)).Nodup →
      ∀ ri ∈ lines, x.id = ri.1.id_ingrediente →
        lines.foldl (descStep n) x =
          { x with cantidad_stock := x.cantidad_stock - ri.1.cantidad_requerida * n } := by
  induction lines with
  | nil => intro x _ ri hri; cases hri
  | cons hd tl ih =>
    intro x hnd ri hri hx
    simp only [List.map_cons, List.nodup_cons] at hnd
    rw [List.foldl_cons]
    rcases List.mem_cons.mp hri with h | h
    · subst h
      have hstep : descStep n x ri
          = { x with cantidad_stock := x.cantidad_stock - ri.1.cantidad_requerida * n } := by
        unfold descStep
        rw [if_pos (by simpa using hx)]
      rw [hstep]
      refine descFold_id n tl _ ?_
      intro rj hrj
      show x.id ≠ rj.1.id_ingrediente
      rw [hx]
      intro he
      exact hnd.1 (by rw [he]; exact List.mem_map_of_mem _ hrj)
    · have hxkey : x.id ∈ tl.map (fun ri => ri.1.id_ingrediente) := by
        rw [hx]
        exact List.mem_map_of_mem _ h
      have hne : (x.id == hd.1.id_ingrediente) = false := by
        simp only [beq_eq_false_iff_ne, ne_eq]
        intro he
        exact hnd.1 (he ▸ hxkey)
      have hstep : descStep n x hd = x := by unfold descStep; rw [hne]; rfl
      rw [hstep]
      exact ih x hnd.2 ri h hx

/-- Source `calcular_stock_estimado` only reads the recipe and ingredient tables. -/
theorem calcular_stock_productos_indep (a b : DB) (pid : Nat)
    (hr : a.recetas = b.recetas) (hi : a.ingredientes = b.ingredientes) :
    calcular_stock_estimado a pid = calcular_stock_estimado b pid := by
  unfold calcular_stock_estimado get_recetas_producto
  rw [hr, hi]

/-- After `actualizar_stock_estimado`, the product's stored estimate is the
value `calcular_stock_estimado` computed on the pre-state. -/
theorem actualizar_stored (db : DB) (pid : Nat) (p : Producto)
    (hp : get_producto db pid = some p) :
    (get_producto (actualizar_stock_estimado db pid) pid).map Producto.stock_estimado
      = some ((calcular_stock_estimado db pid : ℚ)) := by
  have hp' : db.productos.find? (fun q => q.id == pid) = some p := hp
  have hpe : p.id = pid := by simpa using List.find?_some hp'
  unfold actualizar_stock_estimado get_producto
  dsimp only
  rw [find?_map_pres _ _ (fun x => by by_cases hx : x.id == pid <;> simp [hx])]
  rw [hp']
  simp [hpe]

/-- C3: for a sale of `n > 0` units of an existing product whose recipe lines
name pairwise-distinct ingredients, every linked ingredient's stock is
decremented by exactly its requirement times `n` (no floor at zero), and the
product's stored estimated stock afterwards equals the estimate recomputed
against the new ingredient levels. -/
theorem descontar_correct (db : DB) (pid : Nat) (n : ℚ) (p : Producto)
    (hwf : (db.ingredientes.map Ingrediente.id).Nodup)
    (hdist : ((get_recetas_producto db pid).map (fun ri => ri.1.id_ingrediente)).Nodup)
    (hn : 0 < n)
    (hp : get_producto db pid = some p) :
    (∀ ri ∈ get_recetas_producto db pid,
      get_ingrediente (descontar_inventario_por_venta db pid n) ri.1.id_ingrediente
        = some { ri.2 with
            cantidad_stock := ri.2.cantidad_stock - ri.1.cantidad_requerida * n }) ∧
    (get_producto (descontar_inventario_por_venta db pid n) pid).map Producto.stock_estimado
        = some ((calcular_stock_estimado (descontar_inventario_por_venta db pid n) pid : ℚ)) := by
  have hidfold : ∀ x : Ingrediente,
      ((get_recetas_producto db pid).foldl (fun y r => descStep n y r) x).id = x.id := by
    intro x
    induction (get_recetas_producto db pid) generalizing x with
    | nil => rfl
    | cons hd tl ih => rw [List.foldl_cons, ih (descStep n x hd), descStep_id]
  constructor
  · intro ri hri
    obtain ⟨hr, hrp, hi, hii, hia⟩ := mem_recetas_producto hri
    show ((get_recetas_producto db pid).foldl
        (fun ings rj => ings.map (fun i => descStep n i rj)) db.ingredientes).find?
          (fun i => i.id == ri.1.id_ingrediente) = _
    rw [foldl_map_comm]
    rw [find?_map_pres _ _ (fun x => by rw [hidfold x])]
    have hfind : db.ingredientes.find? (fun i => i.id == ri.1.id_ingrediente) = some ri.2 := by
      rw [← hii]
      exact find?_id_of_mem_nodup Ingrediente.id db.ingredientes hwf ri.2 hi
    rw [hfind]
    rw [Option.map_some']
    congr 1
    exact descFold_single n (get_recetas_producto db pid) ri.2 hdist ri hri hii
  · have hp2 : get_producto
        { db with ingredientes := (get_recetas_producto db pid).foldl (fun ings ri => ings.map (fun i => descStep n i ri)) db.ingredientes }
        pid = some p := hp
    have h3 := calcular_stock_productos_indep (descontar_inventario_por_venta db pid n)
      { db with ingredientes := (get_recetas_producto db pid).foldl (fun ings ri => ings.map (fun i => descStep n i ri)) db.ingredientes }
      pid rfl rfl
    rw [h3]
    exact actualizar_stored _ pid p hp2

/-- Witness: C3 on the sample database selling 10 units: Tortilla stock
drops by 2 × 10 and the stored estimate matches the recomputed one. -/
theorem descontar_correct_witness :
    get_ingrediente (descontar_inventario_por_venta dbTaco 1 10) 1
        = some { iTortilla with cantidad_stock := iTortilla.cantidad_stock - 2 * 10 } ∧
    (get_producto (descontar_inventario_por_venta dbTaco 1 10) 1).map Producto.stock_estimado
        = some ((calcular_stock_estimado (descontar_inventario_por_venta dbTaco 1 10) 1 : ℚ)) :=
  ⟨(descontar_correct dbTaco 1 10 pTaco (by decide) (by decide) (by norm_num) (by decide)).1
      (⟨1, 1, 1, 2, "Pza"⟩, iTortilla) (by decide),
    (descontar_correct dbTaco 1 10 pTaco (by decide) (by decide) (by norm_num) (by decide)).2⟩

/-! C6: recompute_cost on an empty recipe set is a no-op -/

/-- C6: if the joined recipe set of `pid` is empty,
`recalcular_costo_producto` returns the state unchanged (in particular the
stored cost is not zeroed). -/
theorem recalcular_costo_noop (db : DB) (pid : Nat)
    (h : get_recetas_producto db pid = []) :
    recalcular_costo_producto db pid = db := by
  unfold recalcular_costo_producto
  simp [h]

/-- Witness: C6 applied to a product without recipe lines. -/
theorem recalcular_costo_noop_witness :
    recalcular_costo_producto dbSinReceta 3 = dbSinReceta :=
  recalcular_costo_noop dbSinReceta 3 (by decide)

/-! Reorganize/renumber machinery (for C4 and C9) -/

/-- Deactivating one id and then filtering the active rows filters the
original rows on `activo` and a different id (ingredient version). -/
theorem filter_deactivate_ing (l : List Ingrediente) (iid : Nat) :
    (l.map (fun i => if i.id == iid then { i with activo := false } else i)).filter
        (fun i => i.activo)
      = l.filter (fun i => i.activo && i.id != iid) := by
  induction l with
  | nil => rfl
  | cons a t ih =>
    by_cases h : a.id = iid
    · simp [List.filter_cons, h]
      simpa using ih
    · by_cases ha : a.activo
      · simp [List.filter_cons, h, ha, bne_iff_ne]
        simpa using ih
      · simp [List.filter_cons, h, ha]
        simpa using ih

/-- Deactivating one id and then filtering (product version). -/
theorem filter_deactivate_prod (l : List Producto) (pid : Nat) :
    (l.map (fun p => if p.id == pid then { p with activo := false } else p)).filter
        (fun p => p.activo)
      = l.filter (fun p => p.activo && p.id != pid) := by
  induction l with
  | nil => rfl
  | cons a t ih =>
    by_cases h : a.id = pid
    · simp [List.filter_cons, h]
      simpa using ih
    · by_cases ha : a.activo
      · simp [List.filter_cons, h, ha, bne_iff_ne]
        simpa using ih
      · simp [List.filter_cons, h, ha]
        simpa using ih

/-- Unfolding the `reorganize_ids('ingredientes')` loop: the reinserted rows
accumulate in order with ids `index + 1`, the recipe references are rewritten
step by step, and the other two tables are untouched. -/
theorem reorg_ing_fold (l : List (Nat × Ingrediente)) :
    ∀ d : DB, l.foldl reorgStepIng d =
      { d with
        ingredientes := d.ingredientes ++ l.map (fun q => { q.2 with id := q.1 + 1 }),
        recetas := l.foldl (fun rs q => rs.map (fun r =>
          if r.id_ingrediente == q.2.id then { r with id_ingrediente := q.1 + 1 } else r))
          d.recetas } := by
  induction l with
  | nil => intro d; simp
  | cons q tl ih =>
    intro d
    rw [List.foldl_cons, ih]
    simp [reorgStepIng]

/-- Unfolding the `reorganize_ids('productos')` loop. -/
theorem reorg_prod_fold (l : List (Nat × Producto)) :
    ∀ d : DB, l.foldl reorgStepProd d =
      { d with
        productos := d.productos ++ l.map (fun q => { q.2 with id := q.1 + 1 }),
        recetas := l.foldl (fun rs q => rs.map (fun r =>
          if r.id_producto == q.2.id then { r with id_producto := q.1 + 1 } else r))
          d.recetas,
        ventas := l.foldl (fun vs q => vs.map (fun v =>
          if v.id_producto == some q.2.id then { v with id_producto := some (q.1 + 1) } else v))
          d.ventas } := by
  induction l with
  | nil => intro d; simp
  | cons q tl ih =>
    intro d
    rw [List.foldl_cons, ih]
    simp [reorgStepProd]

/-- A reference value matching no survivor's old id is unchanged by the
renumbering loop. -/
theorem natFold_id {α : Type} (key : α → Nat) (s : List α) :
    ∀ (k w : Nat), (∀ j ∈ s, w ≠ key j) →
      (s.enumFrom k).foldl (fun v q => if v == key q.2 then q.1 + 1 else v) w = w := by
  induction s with
  | nil => intro k w _; rfl
  | cons a t ih =>
    intro k w h
    rw [List.enumFrom_cons, List.foldl_cons]
    have hne : ¬((w == key a) = true) := by simpa using h a (List.mem_cons_self a t)
    rw [if_neg hne]
    exact ih (k + 1) w (fun j hj => h j (List.mem_cons_of_mem a hj))

/-- The renumbering loop, run over the survivors enumerated from position
`k`, sends a reference to `position + 1` if it was some survivor's old id and
leaves it alone otherwise — provided old ids are strictly increasing and all
exceed `k`, so that a freshly written new id is never hit again by a later
iteration. -/
theorem natFold_renum {α : Type} (key : α → Nat) (s : List α) :
    ∀ (k v : Nat), ((s.map key).Pairwise (· < ·)) → (∀ j ∈ s, k < key j) →
      (s.enumFrom k).foldl (fun w q => if w == key q.2 then q.1 + 1 else w) v
        = match (s.map key).findIdx? (fun o => o == v) with
          | some j => k + j + 1
          | none => v := by
  induction s with
  | nil => intro k v _ _; rfl
  | cons a t ih =>
    intro k v hsort hlow
    have hsort' : (key a :: t.map key).Pairwise (· < ·) := by simpa using hsort
    rcases List.pairwise_cons.mp hsort' with ⟨hafirst, hrest⟩
    rw [List.enumFrom_cons, List.foldl_cons, List.map_cons, List.findIdx?_cons]
    by_cases hv : v = key a
    · rw [if_pos (by simpa using hv)]
      rw [if_pos (by simpa using hv.symm)]
      have hstay : (t.enumFrom (k + 1)).foldl (fun w q => if w == key q.2 then q.1 + 1 else w) (k + 1) = k + 1 := by
        refine natFold_id key t (k + 1) (k + 1) ?_
        intro j hj
        have h1 : k < key a := hlow a (List.mem_cons_self a t)
        have h2 : key a < key j := hafirst (key j) (List.mem_map_of_mem key hj)
        omega
      rw [hstay]
    · rw [if_neg (by simpa using hv)]
      rw [if_neg (by simpa using fun he => hv he.symm)]
      have hlow' : ∀ j ∈ t, k + 1 < key j := by
        intro j hj
        have h1 : k < key a := hlow a (List.mem_cons_self a t)
        have h2 : key a < key j := hafirst (key j) (List.mem_map_of_mem key hj)
        omega
      rw [ih (k + 1) v hrest hlow', List.findIdx?_succ]
      cases hf : (t.map key).findIdx? (fun o => o == v) with
      | none => simp [hf]
      | some j =>
        simp only [hf, Option.map_some']
        show k + 1 + j + 1 = k + (j + 1) + 1
        omega

/-- The per-receta ingredient-reference rewrite loop only changes the
`id_ingrediente` field, by the corresponding value-level loop. -/
theorem recFold_ing_eq (l : List (Nat × Ingrediente)) :
    ∀ r : Receta,
      l.foldl (fun r q =>
        if r.id_ingrediente == q.2.id then { r with id_ingrediente := q.1 + 1 } else r) r
        = { r with id_ingrediente :=
            l.foldl (fun v q => if v == q.2.id then q.1 + 1 else v) r.id_ingrediente } := by
  induction l with
  | nil => intro r; rfl
  | cons q tl ih =>
    intro r
    rw [List.foldl_cons, List.foldl_cons]
    by_cases h : (r.id_ingrediente == q.2.id) = true
    · rw [if_pos h, if_pos h, ih]
    · rw [if_neg h, if_neg h, ih]

/-- The per-receta product-reference rewrite loop. -/
theorem recFold_prod_eq (l : List (Nat × Producto)) :
    ∀ r : Receta,
      l.foldl (fun r q =>
        if r.id_producto == q.2.id then { r with id_producto := q.1 + 1 } else r) r
        = { r with id_producto :=
            l.foldl (fun v q => if v == q.2.id then q.1 + 1 else v) r.id_producto } := by
  induction l with
  | nil => intro r; rfl
  | cons q tl ih =>
    intro r
    rw [List.foldl_cons, List.foldl_cons]
    by_cases h : (r.id_producto == q.2.id) = true
    · rw [if_pos h, if_pos h, ih]
    · rw [if_neg h, if_neg h, ih]

/-- The per-venta product-reference rewrite loop. -/
theorem venFold_eq (l : List (Nat × Producto)) :
    ∀ v : Venta,
      l.foldl (fun v q =>
        if v.id_producto == some q.2.id then { v with id_producto := some (q.1 + 1) } else v) v
        = { v with id_producto :=
            l.foldl (fun ov q => if ov == some q.2.id then some (q.1 + 1) else ov) v.id_producto } := by
  induction l with
  | nil => intro v; rfl
  | cons q tl ih =>
    intro v
    rw [List.foldl_cons, List.foldl_cons]
    by_cases h : (v.id_producto == some q.2.id) = true
    · rw [if_pos h, if_pos h, ih]
    · rw [if_neg h, if_neg h, ih]

/-- A `NULL` sales reference is never rewritten. -/
theorem optFold_none (l : List (Nat × Producto)) :
    l.foldl (fun ov q => if ov == some q.2.id then some (q.1 + 1) else ov) none = none := by
  induction l with
  | nil => rfl
  | cons q tl ih =>
    rw [List.foldl_cons, if_neg (by simp)]
    exact ih

/-- A present sales reference is rewritten exactly like a plain value. -/
theorem optFold_some (l : List (Nat × Producto)) :
    ∀ x : Nat, l.foldl (fun ov q => if ov == some q.2.id then some (q.1 + 1) else ov) (some x)
      = some (l.foldl (fun w q => if w == q.2.id then q.1 + 1 else w) x) := by
  induction l with
  | nil => intro x; rfl
  | cons q tl ih =>
    intro x
    rw [List.foldl_cons, List.foldl_cons]
    by_cases h : (x == q.2.id) = true
    · rw [if_pos (by simpa using h), if_pos h, ih]
    · rw [if_neg (by simpa using h), if_neg h, ih]

/-- Sorted-by-key plus distinct keys gives strictly increasing keys. -/
theorem pairwise_lt_keys {α : Type} (key : α → Nat) (l : List α)
    (hs : l.Pairwise (fun a b => key a ≤ key b)) (hnd : (l.map key).Nodup) :
    (l.map key).Pairwise (· < ·) := by
  induction l with
  | nil => simp
  | cons a t ih =>
    rcases List.pairwise_cons.mp hs with ⟨ha, ht⟩
    simp only [List.map_cons, List.nodup_cons] at hnd
    refine List.Pairwise.cons ?_ (ih ht hnd.2)
    intro y hy
    obtain ⟨b, hb, rfl⟩ := List.mem_map.mp hy
    refine lt_of_le_of_ne (ha b hb) ?_
    intro he
    exact hnd.1 (by rw [he]; exact List.mem_map_of_mem key hb)

/-- A value that is not an old id is fixed by `renum`. -/
theorem renum_not_mem (olds : List Nat) (v : Nat) (h : v ∉ olds) : renum olds v = v := by
  unfold renum
  have hnone : olds.findIdx? (fun o => o == v) = none := by
    rw [List.findIdx?_eq_none_iff]
    intro x hx
    simp only [beq_eq_false_iff_ne, ne_eq]
    intro he
    exact h (he ▸ hx)
  rw [hnone]

/-- The survivor list is a permutation of the still-active other rows. -/
theorem survivorsIng_perm (db : DB) (iid : Nat) :
    (survivorsIng db iid).Perm
      (db.ingredientes.filter (fun i => i.activo && i.id != iid)) := by
  unfold survivorsIng
  rw [filter_deactivate_ing]
  exact List.perm_insertionSort _ _

/-- Product version of `survivorsIng_perm`. -/
theorem survivorsProd_perm (db : DB) (pid : Nat) :
    (survivorsProd db pid).Perm
      (db.productos.filter (fun p => p.activo && p.id != pid)) := by
  unfold survivorsProd
  rw [filter_deactivate_prod]
  exact List.perm_insertionSort _ _

/-- With unique table ids, survivor old ids are strictly increasing. -/
theorem survivorsIng_keys_lt (db : DB) (iid : Nat)
    (hnd : (db.ingredientes.map Ingrediente.id).Nodup) :
    ((survivorsIng db iid).map Ingrediente.id).Pairwise (· < ·) := by
  have hnd1 : ((db.ingredientes.filter
      (fun i => i.activo && i.id != iid)).map Ingrediente.id).Nodup :=
    ((List.filter_sublist _).map Ingrediente.id).nodup hnd
  have hperm := (survivorsIng_perm db iid).map Ingrediente.id
  have hnd2 : ((survivorsIng db iid).map Ingrediente.id).Nodup := hperm.nodup_iff.mpr hnd1
  have hsorted : (survivorsIng db iid).Pairwise leIngId := List.sorted_insertionSort _ _
  exact pairwise_lt_keys Ingrediente.id _ hsorted hnd2

/-- Product version of `survivorsIng_keys_lt`. -/
theorem survivorsProd_keys_lt (db : DB) (pid : Nat)
    (hnd : (db.productos.map Producto.id).Nodup) :
    ((survivorsProd db pid).map Producto.id).Pairwise (· < ·) := by
  have hnd1 : ((db.productos.filter
      (fun p => p.activo && p.id != pid)).map Producto.id).Nodup :=
    ((List.filter_sublist _).map Producto.id).nodup hnd
  have hperm := (survivorsProd_perm db pid).map Producto.id
  have hnd2 : ((survivorsProd db pid).map Producto.id).Nodup := hperm.nodup_iff.mpr hnd1
  have hsorted : (survivorsProd db pid).Pairwise leProdId := List.sorted_insertionSort _ _
  exact pairwise_lt_keys Producto.id _ hsorted hnd2

/-- Survivors inherit positive ids from the table. -/
theorem survivorsIng_pos (db : DB) (iid : Nat)
    (hpos : ∀ i ∈ db.ingredientes, 0 < i.id) :
    ∀ i ∈ survivorsIng db iid, 0 < i.id := by
  intro i hi
  have h1 : i ∈ db.ingredientes.filter (fun i => i.activo && i.id != iid) :=
    (survivorsIng_perm db iid).mem_iff.mp hi
  exact hpos i (List.mem_filter.mp h1).1

/-- Product version of `survivorsIng_pos`. -/
theorem survivorsProd_pos (db : DB) (pid : Nat)
    (hpos : ∀ p ∈ db.productos, 0 < p.id) :
    ∀ p ∈ survivorsProd db pid, 0 < p.id := by
  intro p hp
  have h1 : p ∈ db.productos.filter (fun p => p.activo && p.id != pid) :=
    (survivorsProd_perm db pid).mem_iff.mp hp
  exact hpos p (List.mem_filter.mp h1).1

/-- The deleted id is not a survivor old id. -/
theorem survivorsIng_not_deleted (db : DB) (iid : Nat) :
    iid ∉ (survivorsIng db iid).map Ingrediente.id := by
  intro h
  obtain ⟨i, hi, hid⟩ := List.mem_map.mp h
  have h1 := (survivorsIng_perm db iid).mem_iff.mp hi
  have h2 := (List.mem_filter.mp h1).2
  simp [hid] at h2

/-- Product version of `survivorsIng_not_deleted`. -/
theorem survivorsProd_not_deleted (db : DB) (pid : Nat) :
    pid ∉ (survivorsProd db pid).map Producto.id := by
  intro h
  obtain ⟨p, hp, hid⟩ := List.mem_map.mp h
  have h1 := (survivorsProd_perm db pid).mem_iff.mp hp
  have h2 := (List.mem_filter.mp h1).2
  simp [hid] at h2

/-- Source `delete_ingrediente` in closed form: the ingredient table is replaced by
the renumbered survivors and the recipe references go through the sequential
rewrite loop; products and sales are untouched. -/
theorem delete_ing_char (db : DB) (iid : Nat) :
    delete_ingrediente db iid =
      { productos := db.productos,
        ingredientes := (survivorsIng db iid).enum.map (fun q => { q.2 with id := q.1 + 1 }),
        recetas := (survivorsIng db iid).enum.foldl (fun rs q => rs.map (fun r =>
          if r.id_ingrediente == q.2.id then { r with id_ingrediente := q.1 + 1 } else r))
          db.recetas,
        ventas := db.ventas } := by
  unfold delete_ingrediente reorganize_ids_ingredientes
  dsimp only
  rw [reorg_ing_fold]
  rfl

/-- Source `delete_producto` in closed form. -/
theorem delete_prod_char (db : DB) (pid : Nat) :
    delete_producto db pid =
      { productos := (survivorsProd db pid).enum.map (fun q => { q.2 with id := q.1 + 1 }),
        ingredientes := db.ingredientes,
        recetas := (survivorsProd db pid).enum.foldl (fun rs q => rs.map (fun r =>
          if r.id_producto == q.2.id then { r with id_producto := q.1 + 1 } else r))
          db.recetas,
        ventas := (survivorsProd db pid).enum.foldl (fun vs q => vs.map (fun v =>
          if v.id_producto == some q.2.id then { v with id_producto := some (q.1 + 1) } else v))
          db.ventas } := by
  unfold delete_producto reorganize_ids_productos
  dsimp only
  rw [reorg_prod_fold]
  rfl

/-- Positions in an enumeration from `k` lie in `[k, k + length)`. -/
theorem mem_enumFrom_bounds {α : Type} :
    ∀ (l : List α) (k : Nat) (q : Nat × α), q ∈ l.enumFrom k →
      k ≤ q.1 ∧ q.1 < k + l.length := by
  intro l
  induction l with
  | nil => intro k q hq; cases hq
  | cons a t ih =>
    intro k q hq
    rw [List.enumFrom_cons] at hq
    rcases List.mem_cons.mp hq with h | h
    · subst h; simp
    · have := ih (k + 1) q h
      constructor <;> [omega; (simp only [List.length_cons]; omega)]

/-- The value-level renumbering fold over the enumerated survivors is
`renum` of the survivor old-id list. -/
theorem renum_eq_fold {α : Type} (key : α → Nat) (s : List α) (v : Nat)
    (hsort : (s.map key).Pairwise (· < ·)) (hlow : ∀ j ∈ s, 0 < key j) :
    s.enum.foldl (fun w q => if w == key q.2 then q.1 + 1 else w) v
      = renum (s.map key) v := by
  rw [List.enum_eq_enumFrom, natFold_renum key s 0 v hsort hlow]
  unfold renum
  cases (s.map key).findIdx? (fun o => o == v) with
  | none => rfl
  | some j => show 0 + j + 1 = j + 1; omega

/-- After `delete_ingrediente`, every recipe row has its ingredient reference
renumbered by `renum` over the survivor old ids (a reference to a
non-survivor — in particular to the deleted id — is left as it was). -/
theorem delete_ing_recetas (db : DB) (iid : Nat)
    (hnd : (db.ingredientes.map Ingrediente.id).Nodup)
    (hpos : ∀ i ∈ db.ingredientes, 0 < i.id) :
    (delete_ingrediente db iid).recetas
      = db.recetas.map (fun r =>
          { r with id_ingrediente :=
              renum ((survivorsIng db iid).map Ingrediente.id) r.id_ingrediente }) := by
  rw [delete_ing_char]
  show (survivorsIng db iid).enum.foldl _ db.recetas = _
  rw [foldl_map_comm]
  apply List.map_congr_left
  intro r _
  rw [recFold_ing_eq]
  rw [renum_eq_fold Ingrediente.id _ _ (survivorsIng_keys_lt db iid hnd)
    (survivorsIng_pos db iid hpos)]

/-- After `delete_producto`, every recipe row has its product reference
renumbered by `renum` over the survivor old ids. -/
theorem delete_prod_recetas (db : DB) (pid : Nat)
    (hnd : (db.productos.map Producto.id).Nodup)
    (hpos : ∀ p ∈ db.productos, 0 < p.id) :
    (delete_producto db pid).recetas
      = db.recetas.map (fun r =>
          { r with id_producto :=
              renum ((survivorsProd db pid).map Producto.id) r.id_producto }) := by
  rw [delete_prod_char]
  show (survivorsProd db pid).enum.foldl _ db.recetas = _
  rw [foldl_map_comm]
  apply List.map_congr_left
  intro r _
  rw [recFold_prod_eq]
  rw [renum_eq_fold Producto.id _ _ (survivorsProd_keys_lt db pid hnd)
    (survivorsProd_pos db pid hpos)]

/-- After `delete_producto`, every sales row has its (nullable) product
reference renumbered by `renumOpt`. -/
theorem delete_prod_ventas (db : DB) (pid : Nat)
    (hnd : (db.productos.map Producto.id).Nodup)
    (hpos : ∀ p ∈ db.productos, 0 < p.id) :
    (delete_producto db pid).ventas
      = db.ventas.map (fun v =>
          { v with id_producto :=
              renumOpt ((survivorsProd db pid).map Producto.id) v.id_producto }) := by
  rw [delete_prod_char]
  show (survivorsProd db pid).enum.foldl _ db.ventas = _
  rw [foldl_map_comm]
  apply List.map_congr_left
  intro v _
  rw [venFold_eq]
  cases hvp : v.id_producto with
  | none => rw [optFold_none]; rfl
  | some x =>
    rw [optFold_some]
    rw [renum_eq_fold Producto.id _ _ (survivorsProd_keys_lt db pid hnd)
      (survivorsProd_pos db pid hpos)]
    rfl

/-! C4: deleting an ingredient used by a product -/

/-- C4 counterexample: deleting ingredient 1 renumbers the surviving
ingredient 2 to id 1; the recipe line keeps ingredient id 1, so the join
still returns it — now naming ingredient "B" — and the subsequent recompute
prices the product with B's cost (7) instead of dropping the line. -/
theorem delete_ing_line_survives :
    (get_recetas_producto (delete_ingrediente dbDosIng 1) 1).length = 1 ∧
    ((get_recetas_producto (delete_ingrediente dbDosIng 1) 1).map (fun ri => ri.2.nombre))
      = ["B"] ∧
    (get_producto (recalcular_costo_producto (delete_ingrediente dbDosIng 1) 1) 1).map
        Producto.costo = some 7 := by
  refine ⟨by decide, by decide, ?_⟩
  norm_num [recalcular_costo_producto, get_recetas_producto, get_producto, delete_ingrediente,
    reorganize_ids_ingredientes, reorgStepIng, dbDosIng, iIngA, iIngB, pTaco,
    List.insertionSort, List.orderedInsert, leIngId, List.enum, List.enumFrom]

/-- C4 (amended): deactivating ingredient `iid` removes its line from the
join (and hence from any later cost recompute) exactly in the cases where no
surviving ingredient is renumbered to `iid` — in particular whenever `iid`
exceeds the number of surviving active ingredients. -/
theorem delete_ing_line_gone_when_high (db : DB) (iid pid : Nat)
    (hc : (db.ingredientes.filter (fun i => i.activo && i.id != iid)).length < iid) :
    (get_recetas_producto (delete_ingrediente db iid) pid).all
      (fun ri => ri.1.id_ingrediente != iid) = true := by
  rw [List.all_eq_true]
  intro ri hri
  obtain ⟨hr, hrp, hi, hii, hia⟩ := mem_recetas_producto hri
  rw [delete_ing_char] at hi
  obtain ⟨q, hq, hqe⟩ := List.mem_map.mp hi
  have hb := mem_enumFrom_bounds _ 0 q (by rw [← List.enum_eq_enumFrom]; exact hq)
  have hlen : (survivorsIng db iid).length
      = (db.ingredientes.filter (fun i => i.activo && i.id != iid)).length :=
    (survivorsIng_perm db iid).length_eq
  have hid : ri.2.id = q.1 + 1 := by rw [← hqe]
  simp only [bne_iff_ne, ne_eq]
  intro he
  rw [hii, he] at hid
  omega

/-- Witness: the C4 (amended) theorem at the scenario database, deleting the
highest-id ingredient 2 (one survivor, `1 < 2`). -/
theorem delete_ing_line_gone_when_high_witness :
    (get_recetas_producto (delete_ingrediente dbDosIng 2) 1).all
      (fun ri => ri.1.id_ingrediente != 2) = true :=
  delete_ing_line_gone_when_high dbDosIng 2 1 (by decide)

/-! C9: physical compaction and renumbering on delete -/

/-- C9: `delete_ingrediente` (resp. `delete_producto`) physically rebuilds
the affected table: exactly the still-active other rows survive, reinserted
with consecutive ids 1..n in ascending old-id order; recipe-line (and, for
products, sales) references to each survivor are rewritten to its new id via
`renum`; a reference carrying the deleted entity's id keeps its old value;
and the unrelated tables are untouched. -/
theorem delete_reorganize_spec (db : DB) (iid pid : Nat)
    (hndI : (db.ingredientes.map Ingrediente.id).Nodup)
    (hposI : ∀ i ∈ db.ingredientes, 0 < i.id)
    (hndP : (db.productos.map Producto.id).Nodup)
    (hposP : ∀ p ∈ db.productos, 0 < p.id) :
    ((delete_ingrediente db iid).ingredientes
        = (survivorsIng db iid).enum.map (fun q => { q.2 with id := q.1 + 1 })) ∧
    (survivorsIng db iid).Perm
      (db.ingredientes.filter (fun i => i.activo && i.id != iid)) ∧
    ((survivorsIng db iid).map Ingrediente.id).Pairwise (· < ·) ∧
    ((delete_ingrediente db iid).recetas
        = db.recetas.map (fun r =>
            { r with id_ingrediente := renum ((survivorsIng db iid).map Ingrediente.id) r.id_ingrediente })) ∧
    renum ((survivorsIng db iid).map Ingrediente.id) iid = iid ∧
    (delete_ingrediente db iid).productos = db.productos ∧
    (delete_ingrediente db iid).ventas = db.ventas ∧
    ((delete_producto db pid).productos
        = (survivorsProd db pid).enum.map (fun q => { q.2 with id := q.1 + 1 })) ∧
    (survivorsProd db pid).Perm
      (db.productos.filter (fun p => p.activo && p.id != pid)) ∧
    ((survivorsProd db pid).map Producto.id).Pairwise (· < ·) ∧
    ((delete_producto db pid).recetas
        = db.recetas.map (fun r =>
            { r with id_producto := renum ((survivorsProd db pid).map Producto.id) r.id_producto })) ∧
    ((delete_producto db pid).ventas
        = db.ventas.map (fun v =>
            { v with id_producto := renumOpt ((survivorsProd db pid).map Producto.id) v.id_producto })) ∧
    renum ((survivorsProd db pid).map Producto.id) pid = pid ∧
    (delete_producto db pid).ingredientes = db.ingredientes := by
  refine ⟨?_, survivorsIng_perm db iid, survivorsIng_keys_lt db iid hndI,
    delete_ing_recetas db iid hndI hposI,
    renum_not_mem _ _ (survivorsIng_not_deleted db iid), ?_, ?_, ?_,
    survivorsProd_perm db pid, survivorsProd_keys_lt db pid hndP,
    delete_prod_recetas db pid hndP hposP, delete_prod_ventas db pid hndP hposP,
    renum_not_mem _ _ (survivorsProd_not_deleted db pid), ?_⟩
  · rw [delete_ing_char]
  · rw [delete_ing_char]
  · rw [delete_ing_char]
  · rw [delete_prod_char]
  · rw [delete_prod_char]

/-- Witness: C9 at the scenario database (delete ingredient 1 and product 1):
the compaction equation holds and the dangling reference 1 is kept. -/
theorem delete_reorganize_spec_witness :
    (delete_ingrediente dbDosIng 1).ingredientes
        = (survivorsIng dbDosIng 1).enum.map (fun q => { q.2 with id := q.1 + 1 }) ∧
    renum ((survivorsIng dbDosIng 1).map Ingrediente.id) 1 = 1 :=
  ⟨(delete_reorganize_spec dbDosIng 1 1 (by decide) (by decide) (by decide) (by decide)).1,
   (delete_reorganize_spec dbDosIng 1 1 (by decide) (by decide) (by decide)
      (by decide)).2.2.2.2.1⟩

/-! C7: sale deduction never touches any product's cost or profit -/

/-- C7: `descontar_inventario_por_venta` leaves the `costo` and `ganancia`
(and `precio_unitario`) of every product — sold or not — exactly as they
were: it performs no cost propagation. -/
theorem descontar_no_cost_propagation (db : DB) (pid : Nat) (n : ℚ) (qid : Nat) :
    (get_producto (descontar_inventario_por_venta db pid n) qid).map
        (fun p => (p.costo, p.ganancia, p.precio_unitario))
      = (get_producto db qid).map (fun p => (p.costo, p.ganancia, p.precio_unitario)) := by
  unfold descontar_inventario_por_venta actualizar_stock_estimado get_producto
  simp only
  rw [find?_map_pres _ _ (fun x => by by_cases h : x.id == pid <;> simp [h])]
  cases h : db.productos.find? (fun p => p.id == qid) <;>
    simp [h] <;> split <;> simp

/-! C8: recompute on a missing product is a total no-op -/

/-- C8: for an identifier with no row in `productos`, both
`recalcular_costo_producto` and `actualizar_stock_estimado` leave the entire
state unchanged (the embedding is a total function: no exception is raised on
any input). -/
theorem recalcular_actualizar_missing_noop (db : DB) (pid : Nat)
    (h : get_producto db pid = none) :
    recalcular_costo_producto db pid = db ∧ actualizar_stock_estimado db pid = db := by
  have h' : db.productos.find? (fun q => q.id == pid) = none := h
  have hall : ∀ p ∈ db.productos, (p.id == pid) = false := by
    intro x hx
    simpa using List.find?_eq_none.mp h' x hx
  have hmap : ∀ f : Producto → Producto,
      db.productos.map (fun p => if p.id == pid then f p else p) = db.productos := by
    intro f
    exact map_eq_self_of _ _ (fun x hx => by simp [hall x hx])
  constructor
  · unfold recalcular_costo_producto
    dsimp only
    split
    · rfl
    · show { db with productos := _ } = db
      rw [hmap]
  · unfold actualizar_stock_estimado
    dsimp only
    show { db with productos := _ } = db
    rw [hmap]

/-- Witness: C8 applied to a missing product id that still has a dangling
recipe line. -/
theorem recalcular_actualizar_missing_noop_witness :
    recalcular_costo_producto dbDangling 9 = dbDangling ∧
      actualizar_stock_estimado dbDangling 9 = dbDangling :=
  recalcular_actualizar_missing_noop dbDangling 9 (by decide)

/-! C5: profit equals price minus cost after every price/cost write -/

/-- The tail of `update_producto` (ganancia recompute plus row update) leaves
the written row — looked up under its resulting id — with
`ganancia = precio_unitario - costo`, provided the target id collides with no
other row (which `update_producto` guarantees via its duplicate-id check). -/
theorem applyUpdate_ganancia (db : DB) (old_id : Nat) (idField : Option Nat)
    (kw : ProductoUpdate) (db2 : DB)
    (htouch : (kw.precio_unitario.isSome || kw.costo.isSome) = true)
    (hok : applyUpdateProducto db old_id idField kw = .ok db2)
    (hfresh : ∀ x ∈ db.productos, (x.id == old_id) = false →
      (x.id == idField.getD old_id) = false) :
    ∀ p2, get_producto db2 (idField.getD old_id) = some p2 →
      p2.ganancia = p2.precio_unitario - p2.costo := by
  intro p2 hp2
  unfold applyUpdateProducto at hok
  rw [if_pos htouch] at hok
  cases hq : get_producto db old_id with
  | none => rw [hq] at hok; cases hok
  | some producto =>
    rw [hq] at hok
    injection hok with hdb2
    subst hdb2
    unfold get_producto runUpdateProducto at hp2
    dsimp only at hp2
    rw [find?_map_congr _ _ (fun q => q.id == old_id) _ ?hcong] at hp2
    case hcong =>
      intro x hx
      by_cases hx1 : (x.id == old_id) = true
      · have hxe : x.id = old_id := by simpa using hx1
        simp [hx1, hxe]
      · have hx2 : (x.id == old_id) = false := by simpa using hx1
        have := hfresh x hx hx2
        simp [hx2, this]
    have hq' : db.productos.find? (fun q => q.id == old_id) = some producto := hq
    rw [hq', Option.map_some'] at hp2
    injection hp2 with hp2e
    subst hp2e
    have hpe : (producto.id == old_id) = true := by
      have := List.find?_some hq'
      simpa using this
    simp only [if_pos hpe]
    rfl

/-- C5: after each of the three operations that write a product's price or
cost — `add_producto`, `update_producto` with price or cost among the updated
fields (with or without an id change), and `recalcular_costo_producto` with a
non-empty recipe set — the written row, looked up under its resulting id,
satisfies `ganancia = precio_unitario - costo`. -/
theorem ganancia_invariant (db : DB) :
    (∀ idp nombre precioN costoN unidad gstock stockEst stockMin imagen fecha db2,
      add_producto db idp nombre precioN costoN unidad gstock stockEst stockMin imagen fecha
        = .ok db2 →
      ∀ p2, get_producto db2 idp = some p2 →
        p2.ganancia = p2.precio_unitario - p2.costo) ∧
    (∀ old_id onew kw db2, (kw.precio_unitario.isSome ∨ kw.costo.isSome) →
      update_producto db old_id onew kw = .ok db2 →
      ∀ p2, get_producto db2 (effectiveId old_id onew) = some p2 →
        p2.ganancia = p2.precio_unitario - p2.costo) ∧
    (∀ pid, get_recetas_producto db pid ≠ [] →
      ∀ p2, get_producto (recalcular_costo_producto db pid) pid = some p2 →
        p2.ganancia = p2.precio_unitario - p2.costo) := by
  refine ⟨?_, ?_, ?_⟩
  · intro idp nombre precioN costoN unidad gstock stockEst stockMin imagen fecha db2 hok p2 hp2
    unfold add_producto at hok
    by_cases hex : id_exists_productos db idp
    · rw [if_pos hex] at hok
      cases hok
    · rw [if_neg hex] at hok
      injection hok with hdb2
      subst hdb2
      have hnone : db.productos.find? (fun p => p.id == idp) = none := by
        rw [List.find?_eq_none]
        intro x hx hxe
        exact hex (List.any_eq_true.mpr ⟨x, hx, hxe⟩)
      unfold get_producto at hp2
      rw [List.find?_append, hnone] at hp2
      simp only [Option.none_orElse, List.find?_singleton] at hp2
      rw [if_pos (by simp)] at hp2
      injection hp2 with hp2e
      subst hp2e
      rfl
  · intro old_id onew kw db2 htouch hok p2 hp2
    have hbool : (kw.precio_unitario.isSome || kw.costo.isSome) = true := by
      rcases htouch with h | h <;> simp [h]
    cases onew with
    | none =>
      unfold update_producto at hok
      dsimp only at hok
      exact applyUpdate_ganancia db old_id none kw db2 hbool hok (fun x hx h1 => h1) p2 hp2
    | some nid =>
      unfold update_producto at hok
      dsimp only at hok
      by_cases hcond : (nid != 0 && nid != old_id) = true
      · rw [if_pos hcond] at hok
        dsimp only at hok
        by_cases hex : id_exists_productos db nid
        · rw [if_pos hex] at hok
          cases hok
        · rw [if_neg hex] at hok
          have heff : effectiveId old_id (some nid) = nid := by
            unfold effectiveId
            dsimp only
            rw [if_pos hcond]
          rw [heff] at hp2
          have hno : ∀ y ∈ db.productos, (y.id == nid) = false := by
            intro y hy
            by_contra hyy
            exact hex (List.any_eq_true.mpr ⟨y, hy, by simpa using hyy⟩)
          exact applyUpdate_ganancia _ old_id (some nid) kw db2 hbool hok
            (fun x hx _ => hno x hx) p2 hp2
      · rw [if_neg hcond] at hok
        dsimp only at hok
        have heff : effectiveId old_id (some nid) = old_id := by
          unfold effectiveId
          dsimp only
          rw [if_neg hcond]
        rw [heff] at hp2
        exact applyUpdate_ganancia db old_id none kw db2 hbool hok (fun x hx h1 => h1) p2 hp2
  · intro pid hne p2 hp2
    unfold recalcular_costo_producto get_producto at hp2
    dsimp only at hp2
    rw [if_neg (by simpa using hne)] at hp2
    dsimp only at hp2
    rw [find?_map_pres _ _ (fun x => by by_cases hx : x.id == pid <;> simp [hx])] at hp2
    cases hq : db.productos.find? (fun q => q.id == pid) with
    | none => rw [hq] at hp2; cases hp2
    | some p =>
      rw [hq, Option.map_some'] at hp2
      injection hp2 with hp2e
      subst hp2e
      have hpe : (p.id == pid) = true := by simpa using List.find?_some hq
      simp only [if_pos hpe]

/-- Witness: C5 via `add_producto` of the "Agua" row (price 4, cost 1) and
via an id-changing `update_producto` of "Torta" (id 3 → 5, new price 30). -/
theorem ganancia_invariant_witness :
    (aguaRow.ganancia = aguaRow.precio_unitario - aguaRow.costo) ∧
    (updTorta.ganancia = updTorta.precio_unitario - updTorta.costo) :=
  ⟨(ganancia_invariant dbSinReceta).1 7 "Agua" 4 1 "Pza" false 0 0 none "" dbAgua rfl
      aguaRow rfl,
   (ganancia_invariant dbSinReceta).2.1 3 (some 5) ⟨none, some 30, none⟩ dbTortaUpd
      (Or.inl rfl) rfl updTorta rfl⟩

/-! C10: restocking an ingredient only adds to that ingredient's stock -/

/-- C10: `registrar_compra_ingrediente I q` adds `q` to ingredient `I`'s
stock (all other fields of `I` unchanged), leaves every other ingredient row
unchanged, and does not touch products (cost, profit, estimated stock),
recipes, or sales. -/
theorem registrar_compra_frame (db : DB) (iid : Nat) (q : ℚ) :
    (registrar_compra_ingrediente db iid q).productos = db.productos ∧
    (registrar_compra_ingrediente db iid q).recetas = db.recetas ∧
    (registrar_compra_ingrediente db iid q).ventas = db.ventas ∧
    get_ingrediente (registrar_compra_ingrediente db iid q) iid
      = (get_ingrediente db iid).map
          (fun i => { i with cantidad_stock := i.cantidad_stock + q }) ∧
    ∀ jid, jid ≠ iid →
      get_ingrediente (registrar_compra_ingrediente db iid q) jid = get_ingrediente db jid := by
  refine ⟨rfl, rfl, rfl, ?_, ?_⟩
  · unfold registrar_compra_ingrediente get_ingrediente
    dsimp only
    rw [find?_map_pres _ _ (fun x => by by_cases hx : x.id == iid <;> simp [hx])]
    cases h : db.ingredientes.find? (fun i => i.id == iid) with
    | none => rfl
    | some i =>
      have hii : i.id = iid := by simpa using List.find?_some h
      simp [hii]
  · intro jid hne
    unfold registrar_compra_ingrediente get_ingrediente
    dsimp only
    rw [find?_map_pres _ _ (fun x => by by_cases hx : x.id == iid <;> simp [hx])]
    cases h : db.ingredientes.find? (fun i => i.id == jid) with
    | none => rfl
    | some i =>
      have hij : i.id = jid := by simpa using List.find?_some h
      have hni : i.id ≠ iid := by omega
      simp [hni]

/-- Witness: C10 applied to restocking Tortilla by 7 in the Taco database. -/
theorem registrar_compra_frame_witness :
    (registrar_compra_ingrediente dbTaco 1 7).productos = dbTaco.productos ∧
    get_ingrediente (registrar_compra_ingrediente dbTaco 1 7) 2 = get_ingrediente dbTaco 2 :=
  ⟨(registrar_compra_frame dbTaco 1 7).1,
    (registrar_compra_frame dbTaco 1 7).2.2.2.2 2 (by decide)⟩

end Mitsys
